import Mathlib

/-!
Verification of the room-session and message-relay core of the chat server
(`server.js`): Message Store, Room Registry, Session Router handlers
(join-room, chat-message/message, end-session, file) and History Replay.

The embedding translates the JavaScript source directly:
  * a JS value that may be `undefined`/`null`/a string is `Option String`;
    JS truthiness for such a value is `truthyS` (empty string is falsy);
  * the SQLite `messages` table is a `List Message` in rowid (insertion)
    order; `storeMessage` is the `INSERT`, failing exactly when the
    `PRIMARY KEY` / unique-index constraint on `id` rejects the row;
  * `getRecentMessages` is the `SELECT ... ORDER BY created_at DESC LIMIT ?`
    followed by `rows.reverse()`; the `DESC` scan uses the
    `(room_id, created_at DESC)` index, whose entries carry the rowid as an
    implicit ascending tiebreaker, so equal-`created_at` rows come back in
    insertion order before the final reversal — modelled by a stable
    insertion sort on the insertion-ordered list;
  * the in-memory `rooms` object (`{ roomId: Set(username) }`) is an
    association list `Registry` whose participant lists are duplicate-free
    and in Set insertion order;
  * socket side effects (`socket.emit`, `socket.to(room).emit`,
    `io.to(room).emit`, ack callbacks, the DB insert) are reified as an
    ordered `List Effect`, with the three delivery sets (sender only,
    others in room, whole room) kept distinct;
  * nondeterministic inputs (`Date.now()`, `uuidv4()`,
    `Math.random().toString(36)`) are explicit parameters.
-/

/-- A row of the `messages` table (all columns the server writes). -/
structure Message where
  id : String
  room_id : String
  username : String
  content : String
  type : String
  filename : Option String
  mime : Option String
  created_at : Nat
deriving Repr, DecidableEq

/-- JS `x || y` for string-or-null values: `x` when truthy (non-null,
non-empty), else `y`. -/
def jsOrS (x y : Option String) : Option String :=
  match x with
  | some s => if s = "" then y else some s
  | none => y

/-- JS truthiness of a string-or-null value. -/
def truthyS : Option String → Bool
  | some s => !(s == "")
  | none => false

/-- JS `x || dflt` producing a plain string (`dflt` assumed truthy). -/
def jsStr (x : Option String) (dflt : String) : String :=
  match x with
  | some s => if s = "" then dflt else s
  | none => dflt

/-- JS `x || null`: collapses the falsy empty string to null. -/
def jsOrNullS (x : Option String) : Option String :=
  match x with
  | some s => if s = "" then none else some s
  | none => none

/-- JS `s.slice(0, n)`: the first `n` characters. -/
def takeStr (s : String) (n : Nat) : String := ⟨s.data.take n⟩

/-- JS `s.slice(n)`: all but the first `n` characters. -/
def dropStr (s : String) (n : Nat) : String := ⟨s.data.drop n⟩

/-- JS `s.toUpperCase()`, character-wise. -/
def upperStr (s : String) : String := ⟨s.data.map Char.toUpper⟩

/-- JS `s.trim()`: strip leading and trailing whitespace. -/
def trimStr (s : String) : String :=
  ⟨((s.data.dropWhile Char.isWhitespace).reverse.dropWhile
      Char.isWhitespace).reverse⟩

/-- The argument object passed to `storeMessage` (defaults not yet applied);
`created_at = some 0` is falsy in JS, hence the `Option Nat` with `0`
treated as absent by the store. -/
structure DbMsg where
  id : String
  room_id : String
  username : String
  content : String
  type : Option String
  filename : Option String
  mime : Option String
  created_at : Option Nat
deriving Repr, DecidableEq

/-- The row `storeMessage` builds from its argument: `type || 'text'`,
`filename || null`, `mime || null`, `created_at || Date.now()`. -/
def dbRow (msg : DbMsg) (now : Nat) : Message :=
  { id := msg.id
    room_id := msg.room_id
    username := msg.username
    content := msg.content
    type := jsStr msg.type "text"
    filename := jsOrNullS msg.filename
    mime := jsOrNullS msg.mime
    created_at := match msg.created_at with
      | some n => if n = 0 then now else n
      | none => now }

/-- `storeMessage`: INSERT INTO messages; the unique index on `id` makes the
insert throw exactly when a row with the same `id` already exists. -/
def storeMessage (store : List Message) (msg : DbMsg) (now : Nat) :
    Except String (List Message) :=
  let row := dbRow msg now
  if store.any (fun m => m.id == row.id) then
    .error "UNIQUE constraint failed: messages.id"
  else
    .ok (store ++ [row])

/-- Insert one message into a list already sorted by `created_at`
descending, placing it before the first element whose timestamp is ≤ its
own (so, among equal timestamps, earlier list elements stay earlier). -/
def insertDesc (m : Message) : List Message → List Message
  | [] => [m]
  | y :: ys =>
    if y.created_at ≤ m.created_at then m :: y :: ys
    else y :: insertDesc m ys

/-- Stable sort by `created_at` descending: the order SQLite's
`(room_id, created_at DESC)` index scan yields, with the implicit
ascending-rowid tiebreaker, when the input list is in rowid order. -/
def sortDesc : List Message → List Message
  | [] => []
  | x :: xs => insertDesc x (sortDesc xs)

/-- `getRecentMessages`: `SELECT ... WHERE room_id = ? ORDER BY created_at
DESC LIMIT ?` then `rows.reverse()` (oldest → newest). -/
def getRecentMessages (store : List Message) (roomId : String)
    (limit : Nat := 50) : List Message :=
  ((sortDesc (store.filter (fun m => m.room_id == roomId))).take limit).reverse

/-- The in-memory `rooms` object: room id → participant names, in insertion
order, one entry per room, no empty entries, no duplicate names. -/
abbrev Registry := List (String × List String)

/-- Lookup `rooms[roomId]` (first matching entry). -/
def regLookup : Registry → String → Option (List String)
  | [], _ => none
  | (a, s) :: rest, roomId => if a == roomId then some s else regLookup rest roomId

/-- `addParticipant`: create the room's set if absent, then `Set.add`
(appends the name only if not already present). -/
def addParticipant : Registry → String → String → Registry
  | [], roomId, u => [(roomId, [u])]
  | (r, s) :: rest, roomId, u =>
    if r == roomId then
      (r, if s.contains u then s else s ++ [u]) :: rest
    else
      (r, s) :: addParticipant rest roomId u

/-- `removeParticipant`: no-op when the room is absent; deletes the name;
deletes the whole room entry when the set becomes empty. -/
def removeParticipant : Registry → String → String → Registry
  | [], _, _ => []
  | (r, s) :: rest, roomId, u =>
    if r == roomId then
      let s' := s.erase u
      if s'.isEmpty then rest else (r, s') :: rest
    else
      (r, s) :: removeParticipant rest roomId u

/-- `listParticipants`: `Array.from(set)` when present, else `[]`. -/
def listParticipants (reg : Registry) (roomId : String) : List String :=
  (regLookup reg roomId).getD []

/-- Is `user` currently a participant of `room`? -/
def memReg (reg : Registry) (room user : String) : Bool :=
  (listParticipants reg room).contains user

/-- Per-connection state (`socket.data`): both fields null until join. -/
structure SessionData where
  username : Option String
  roomId : Option String
deriving Repr, DecidableEq

/-- The three distinct delivery sets of an outbound emit. -/
inductive Delivery where
  /-- `socket.emit(...)`: the handling connection only. -/
  | sender
  /-- `socket.to(room).emit(...)`: every other connection in the room. -/
  | others (room : String)
  /-- `io.to(room).emit(...)`: every connection currently in the room. -/
  | room (room : String)
deriving Repr, DecidableEq

/-- The `chat-message` wire envelope (identical for live and replay). -/
structure WireMsg where
  id : String
  username : String
  text : String
  timestamp : Nat
  type : String
  filename : Option String
  mime : Option String
deriving Repr, DecidableEq

/-- Outbound event payloads. -/
inductive Payload where
  | joined (roomId : String) (participants : List String)
  | userJoined (username : String) (participants : List String)
  | userLeft (username : String) (participants : List String)
  | participants (ps : List String)
  | chat (w : WireMsg)
  | fileOut (id : String) (username : String) (url : String)
      (filename : Option String) (ts : Nat)
  | errText (s : String)
  | typingOf (username : String)
deriving Repr, DecidableEq

/-- Result passed to a send acknowledgment callback. -/
inductive AckRes where
  | ok (id : String)
  | err (e : String)
deriving Repr, DecidableEq

/-- One observable side effect of a handler, in execution order. -/
inductive Effect where
  /-- `socket.emit` / `socket.to(...).emit` / `io.to(...).emit`. -/
  | emit (d : Delivery) (event : String) (p : Payload)
  /-- The successful `storeMessage` INSERT. -/
  | dbInsert (m : Message)
  /-- Invocation of the ack callback. -/
  | ack (r : AckRes)
deriving Repr, DecidableEq

/-- Inbound `chat-message` / `message` payload. The `id` field may be
present in a client payload but is never read by the server. -/
structure ChatPayload where
  id : Option String
  roomId : Option String
  username : Option String
  text : Option String
  type : Option String
  filename : Option String
  mime : Option String
deriving Repr, DecidableEq

/-- `const roomId = msg.roomId || socket.data.roomId`. -/
def resolvedRoom (sess : SessionData) (msg : ChatPayload) : Option String :=
  jsOrS msg.roomId sess.roomId

/-- `const text = (msg.text || '').toString().trim()`. -/
def resolvedText (msg : ChatPayload) : String :=
  trimStr (msg.text.getD "")

/-- `const username = msg.username || socket.data.username || 'Anonymous'`. -/
def resolvedUser (sess : SessionData) (msg : ChatPayload) : String :=
  jsStr (jsOrS msg.username sess.username) "Anonymous"

/-- The `messageData` object `handleIncomingMessage` builds for a valid
send: fresh `'msg-' + uuidv4()` id, resolved fields, `Date.now()` stamp. -/
def chatDbMsg (sess : SessionData) (msg : ChatPayload) (uuid : String)
    (now : Nat) : DbMsg :=
  { id := "msg-" ++ uuid
    room_id := (resolvedRoom sess msg).getD ""
    username := resolvedUser sess msg
    content := resolvedText msg
    type := some (jsStr msg.type "text")
    filename := jsOrNullS msg.filename
    mime := jsOrNullS msg.mime
    created_at := some now }

/-- `handleIncomingMessage(socket, msg, ack)`: validate, persist, broadcast.
`hasAck` is `typeof ack === 'function'`; `uuid` is this call's `uuidv4()`;
`now` is `Date.now()`. Returns the store and the ordered effects. -/
def handleIncomingMessage (store : List Message) (sess : SessionData)
    (msg : ChatPayload) (hasAck : Bool) (uuid : String) (now : Nat) :
    List Message × List Effect :=
  let roomIdO := resolvedRoom sess msg
  let text := resolvedText msg
  if !truthyS roomIdO || text == "" then
    (store, if hasAck then [.ack (.err "Invalid payload")] else [])
  else
    let roomId := roomIdO.getD ""
    let messageData : DbMsg := chatDbMsg sess msg uuid now
    match storeMessage store messageData now with
    | .error e =>
      (store,
        (if hasAck then [.ack (.err e)] else []) ++
        [.emit .sender "error-message" (.errText ("Store failed: " ++ e))])
    | .ok store' =>
      let row := dbRow messageData now
      (store',
        [.dbInsert row,
         .emit (.room roomId) "chat-message"
           (.chat ⟨row.id, row.username, row.content, row.created_at,
                   row.type, row.filename, row.mime⟩)] ++
        (if hasAck then [.ack (.ok row.id)] else []))

/-- The room id a join resolves to:
`if (!roomId) roomId = 'room-' + Math.random().toString(36).slice(2, 9).toUpperCase()`
with `randStr` the `toString(36)` rendering of the random number. -/
def joinRoomId (roomIdIn : Option String) (randStr : String) : String :=
  if truthyS roomIdIn then roomIdIn.getD ""
  else "room-" ++ upperStr (takeStr (dropStr randStr 2) 7)

/-- The display name a join resolves to:
`(username && String(username).slice(0, 48)) || 'Anonymous'`. -/
def joinName (usernameIn : Option String) : String :=
  if truthyS usernameIn then takeStr (usernameIn.getD "") 48
  else "Anonymous"

/-- The `join-room` handler. `randStr` is `Math.random().toString(36)`;
the minted room id is `'room-' + randStr.slice(2, 9).toUpperCase()`.
Returns the registry, the new session state and the ordered effects. -/
def joinRoom (reg : Registry) (store : List Message)
    (roomIdIn usernameIn : Option String) (randStr : String) :
    Registry × SessionData × List Effect :=
  let roomId := joinRoomId roomIdIn randStr
  let name := joinName usernameIn
  let reg' := addParticipant reg roomId name
  let parts := listParticipants reg' roomId
  let history := getRecentMessages store roomId 50
  (reg',
   { username := some name, roomId := some roomId },
   [.emit .sender "joined" (.joined roomId parts),
    .emit (.others roomId) "user-joined" (.userJoined name parts)] ++
   (if history.isEmpty then []
    else history.map (fun m =>
      .emit .sender "chat-message"
        (.chat ⟨m.id, m.username, m.content, m.created_at,
                m.type, m.filename, m.mime⟩))))

/-- The `end-session` handler: resolve room and name from payload or
session; when both are truthy, leave the transport room, remove from the
registry and emit `participants` and `user-left` to the whole room. -/
def endSession (reg : Registry) (sess : SessionData)
    (roomIdIn usernameIn : Option String) : Registry × List Effect :=
  let r := jsOrS roomIdIn sess.roomId
  let name := jsOrS usernameIn sess.username
  if truthyS r && truthyS name then
    let room := r.getD ""
    let nm := name.getD ""
    let reg' := removeParticipant reg room nm
    let parts := listParticipants reg' room
    (reg',
     [.emit (.room room) "participants" (.participants parts),
      .emit (.room room) "user-left" (.userLeft nm parts)])
  else
    (reg, [])

/-- Inbound `file` payload; `id`, if a client sends one, is never read. -/
structure FilePayload where
  id : Option String
  roomId : Option String
  username : Option String
  url : Option String
  filename : Option String
  mime : Option String
deriving Repr, DecidableEq

/-- The `fileData` object the `file` handler builds: fresh
`'file-' + uuidv4()` id, resolved room and username, the URL as content,
fixed `file` type, `Date.now()` stamp. -/
def fileDbMsg (sess : SessionData) (f : FilePayload) (uuid : String)
    (now : Nat) : DbMsg :=
  { id := "file-" ++ uuid
    room_id := (jsOrS f.roomId sess.roomId).getD ""
    username := jsStr (jsOrS f.username sess.username) "Anonymous"
    content := f.url.getD ""
    type := some "file"
    filename := jsOrNullS f.filename
    mime := jsOrNullS f.mime
    created_at := some now }

/-- The `file` handler: validate room and url, persist a `file`-typed row
with a `file-`-prefixed id, broadcast the `file` event to the whole room.
A `storeMessage` throw is caught by the handler's outer catch. -/
def handleFile (store : List Message) (sess : SessionData)
    (f : FilePayload) (uuid : String) (now : Nat) :
    List Message × List Effect :=
  let roomIdO := jsOrS f.roomId sess.roomId
  if !truthyS roomIdO || !truthyS f.url then
    (store, [.emit .sender "error-message" (.errText "Invalid file payload")])
  else
    let roomId := roomIdO.getD ""
    let url := f.url.getD ""
    let fileData : DbMsg := fileDbMsg sess f uuid now
    match storeMessage store fileData now with
    | .error e =>
      (store,
       [.emit .sender "error-message"
          (.errText ("File send failed: " ++ e))])
    | .ok store' =>
      let row := dbRow fileData now
      (store',
       [.dbInsert row,
        .emit (.room roomId) "file"
          (.fileOut row.id row.username url f.filename row.created_at)])

/-- A join or a leave/disconnect, as seen by the Room Registry. -/
inductive RegOp where
  | add (room : String) (user : String)
  | remove (room : String) (user : String)
deriving Repr, DecidableEq

/-- Apply one registry operation. -/
def applyOp (reg : Registry) : RegOp → Registry
  | .add r u => addParticipant reg r u
  | .remove r u => removeParticipant reg r u

/-- Run a whole sequence of joins/leaves from the empty registry. -/
def applyOps (ops : List RegOp) : Registry := ops.foldl applyOp []

/-- Specification-side membership: starting from `init`, has `user` joined
`room` and not subsequently left it? -/
def joinedNotLeft (init : Bool) (ops : List RegOp) (room user : String) :
    Bool :=
  ops.foldl
    (fun b op =>
      match op with
      | .add r u => if r == room && u == user then true else b
      | .remove r u => if r == room && u == user then false else b)
    init

/-- Registry well-formedness: one entry per room id, every participant list
non-empty and duplicate-free. -/
def RegWF (reg : Registry) : Prop :=
  (reg.map Prod.fst).Nodup ∧ ∀ p ∈ reg, p.2 ≠ [] ∧ p.2.Nodup

example : addParticipant [] "r" "A" = [("r", ["A"])] := by decide
example : addParticipant [("r", ["A"])] "r" "A" = [("r", ["A"])] := by decide
example : removeParticipant [("r", ["A"])] "r" "A" = [] := by decide
example : removeParticipant [("r", ["A", "B"])] "r" "A" = [("r", ["B"])] := by decide
example : listParticipants [] "nope" = [] := by decide

lemma regLookup_nil (r : String) : regLookup [] r = none := rfl

lemma regLookup_cons (a : String) (s : List String) (rest : Registry)
    (r : String) :
    regLookup ((a, s) :: rest) r =
      if a == r then some s else regLookup rest r := rfl

lemma regLookup_eq_none {reg : Registry} {r : String}
    (h : r ∉ reg.map Prod.fst) : regLookup reg r = none := by
  induction reg with
  | nil => rfl
  | cons p rest ih =>
    obtain ⟨a, s⟩ := p
    simp only [List.map_cons, List.mem_cons] at h
    push_neg at h
    rw [regLookup_cons, if_neg (by simp [Ne.symm h.1]), ih h.2]

lemma addParticipant_cons (a : String) (s : List String) (rest : Registry)
    (r u : String) :
    addParticipant ((a, s) :: rest) r u =
      if a == r then (a, if s.contains u then s else s ++ [u]) :: rest
      else (a, s) :: addParticipant rest r u := rfl

lemma removeParticipant_cons (a : String) (s : List String) (rest : Registry)
    (r u : String) :
    removeParticipant ((a, s) :: rest) r u =
      if a == r then
        (if (s.erase u).isEmpty then rest else (a, s.erase u) :: rest)
      else (a, s) :: removeParticipant rest r u := rfl

/-- `addParticipant` changes only the looked-up room itself. -/
lemma regLookup_add_other {r room : String} (reg : Registry) (u : String)
    (h : r ≠ room) :
    regLookup (addParticipant reg r u) room = regLookup reg room := by
  induction reg with
  | nil =>
    show regLookup [(r, [u])] room = none
    rw [regLookup_cons, if_neg (by simp [h])]
    rfl
  | cons p rest ih =>
    obtain ⟨a, s⟩ := p
    rw [addParticipant_cons]
    by_cases hb : a = r
    · subst hb
      rw [if_pos (by simp), regLookup_cons, regLookup_cons,
        if_neg (by simp [h]), if_neg (by simp [h])]
    · rw [if_neg (by simp [hb]), regLookup_cons, regLookup_cons, ih]

/-- The looked-up room after `addParticipant` on it. -/
lemma regLookup_add_self (reg : Registry) (r u : String) :
    regLookup (addParticipant reg r u) r =
      some (match regLookup reg r with
            | some s => if s.contains u then s else s ++ [u]
            | none => [u]) := by
  induction reg with
  | nil =>
    show regLookup [(r, [u])] r = _
    rw [regLookup_cons, if_pos (by simp)]
    rfl
  | cons p rest ih =>
    obtain ⟨a, s⟩ := p
    rw [addParticipant_cons]
    by_cases hb : a = r
    · subst hb
      simp [regLookup_cons]
    · simp [regLookup_cons, hb, ih]

/-- `removeParticipant` changes only the looked-up room itself. -/
lemma regLookup_remove_other {r room : String} (reg : Registry) (u : String)
    (h : r ≠ room) :
    regLookup (removeParticipant reg r u) room = regLookup reg room := by
  induction reg with
  | nil => rfl
  | cons p rest ih =>
    obtain ⟨a, s⟩ := p
    rw [removeParticipant_cons]
    by_cases hb : a = r
    · subst hb
      rw [if_pos (by simp)]
      by_cases he : (s.erase u).isEmpty
      · rw [if_pos he, regLookup_cons, if_neg (by simp [h])]
      · rw [if_neg he, regLookup_cons, regLookup_cons,
          if_neg (by simp [h]), if_neg (by simp [h])]
    · rw [if_neg (by simp [hb]), regLookup_cons, regLookup_cons, ih]

/-- The looked-up room after `removeParticipant` on it (needs one entry per
room id so that deleting the entry really empties the lookup). -/
lemma regLookup_remove_self {reg : Registry} (hkeys : (reg.map Prod.fst).Nodup)
    (r u : String) :
    regLookup (removeParticipant reg r u) r =
      match regLookup reg r with
      | some s => if (s.erase u).isEmpty then none else some (s.erase u)
      | none => none := by
  induction reg with
  | nil => rfl
  | cons p rest ih =>
    obtain ⟨a, s⟩ := p
    simp only [List.map_cons, List.nodup_cons] at hkeys
    rw [removeParticipant_cons]
    by_cases hb : a = r
    · subst hb
      by_cases he : (s.erase u).isEmpty
      · simp only [beq_self_eq_true, if_true, he, regLookup_cons]
        rw [regLookup_eq_none hkeys.1]
      · simp [regLookup_cons, he]
    · simp only [regLookup_cons, if_neg (by simp [hb] : ¬(a == r) = true)]
      exact ih hkeys.2

lemma regLookup_mem {reg : Registry} {room : String} {s : List String}
    (h : regLookup reg room = some s) : (room, s) ∈ reg := by
  induction reg with
  | nil => exact absurd h (by simp [regLookup_nil])
  | cons p rest ih =>
    obtain ⟨a, t⟩ := p
    rw [regLookup_cons] at h
    by_cases hb : a = room
    · subst hb
      simp only [beq_self_eq_true, if_true, Option.some.injEq] at h
      subst h
      exact List.mem_cons_self _ _
    · rw [if_neg (by simp [hb])] at h
      exact List.mem_cons_of_mem _ (ih h)

/-- Membership after `addParticipant`: exactly the new pair becomes
present. -/
lemma memReg_add_iff (reg : Registry) (r u room user : String) :
    memReg (addParticipant reg r u) room user = true ↔
      ((r = room ∧ u = user) ∨ memReg reg room user = true) := by
  by_cases h : r = room
  · subst h
    unfold memReg listParticipants
    rw [regLookup_add_self]
    cases hL : regLookup reg r with
    | none => simp [eq_comm]
    | some s =>
      by_cases hc : s.contains u
      · have hu : u ∈ s := by simpa using hc
        simp only [hc, if_true, Option.getD_some]
        constructor
        · intro hm
          exact Or.inr (by simpa [hL] using hm)
        · rintro (⟨-, rfl⟩ | hm)
          · simpa using hu
          · simpa [hL] using hm
      · simp only [hc, if_false, Option.getD_some]
        constructor
        · intro hm
          have hm' : user ∈ s ∨ user = u := by simpa using hm
          rcases hm' with hm' | hm'
          · exact Or.inr (by simp [hL, hm'])
          · exact Or.inl ⟨by simp, hm'.symm⟩
        · rintro (⟨-, rfl⟩ | hm)
          · simp
          · have : user ∈ s := by simpa [hL] using hm
            simp [this]
  · unfold memReg listParticipants
    rw [regLookup_add_other reg u h]
    simp [h]

/-- Membership after `removeParticipant`: exactly the removed pair becomes
absent (one entry per room, duplicate-free participant lists). -/
lemma memReg_remove_iff {reg : Registry} (hWF : RegWF reg)
    (r u room user : String) :
    memReg (removeParticipant reg r u) room user = true ↔
      (memReg reg room user = true ∧ ¬(r = room ∧ u = user)) := by
  by_cases h : r = room
  · subst h
    unfold memReg listParticipants
    rw [regLookup_remove_self hWF.1]
    cases hL : regLookup reg r with
    | none => simp
    | some s =>
      have hs : s.Nodup := (hWF.2 _ (regLookup_mem hL)).2
      by_cases he : (s.erase u).isEmpty
      · have herase : s.erase u = [] := by simpa using he
        have hall : ∀ x ∈ s, x = u := by
          intro x hx
          by_contra hne
          have : x ∈ s.erase u := (hs.mem_erase_iff).mpr ⟨hne, hx⟩
          simp [herase] at this
        simp only [he, if_true, Option.getD_none]
        constructor
        · intro hm
          simp at hm
        · rintro ⟨hm, hne⟩
          have : user ∈ s := by simpa using hm
          exact absurd ⟨by simp, (hall user this).symm⟩ hne
      · simp only [he, if_false, Option.getD_some]
        constructor
        · intro hm
          have hm' : user ∈ s.erase u := by simpa using hm
          rcases (hs.mem_erase_iff).mp hm' with ⟨hne, hmem⟩
          exact ⟨by simp [hmem], by rintro ⟨-, rfl⟩; exact hne rfl⟩
        · rintro ⟨hm, hne⟩
          have hmem : user ∈ s := by simpa using hm
          have hneq : user ≠ u := by
            intro heq
            exact hne ⟨by simp, heq.symm⟩
          simpa using (hs.mem_erase_iff).mpr ⟨hneq, hmem⟩
  · unfold memReg listParticipants
    rw [regLookup_remove_other reg u h]
    simp [h]

lemma mem_keys_add (reg : Registry) (r u x : String) :
    x ∈ (addParticipant reg r u).map Prod.fst ↔
      x ∈ reg.map Prod.fst ∨ x = r := by
  induction reg with
  | nil => simp [addParticipant]
  | cons p rest ih =>
    obtain ⟨a, s⟩ := p
    rw [addParticipant_cons]
    by_cases hb : a = r
    · subst hb
      simp only [beq_self_eq_true, if_true, List.map_cons, List.mem_cons]
      constructor
      · rintro (rfl | hx)
        · exact Or.inl (Or.inl rfl)
        · exact Or.inl (Or.inr hx)
      · rintro ((rfl | hx) | rfl)
        · exact Or.inl rfl
        · exact Or.inr hx
        · exact Or.inl rfl
    · rw [if_neg (by simp [hb])]
      simp only [List.map_cons, List.mem_cons, ih]
      tauto

lemma RegWF_add {reg : Registry} (hWF : RegWF reg) (r u : String) :
    RegWF (addParticipant reg r u) := by
  induction reg with
  | nil =>
    refine ⟨by simp [addParticipant], ?_⟩
    intro p hp
    simp only [addParticipant, List.mem_singleton] at hp
    subst hp
    exact ⟨by simp, by simp⟩
  | cons p rest ih =>
    obtain ⟨a, s⟩ := p
    obtain ⟨hkeys, hents⟩ := hWF
    simp only [List.map_cons, List.nodup_cons] at hkeys
    have hres : RegWF rest := ⟨hkeys.2, fun q hq => hents q (List.mem_cons_of_mem _ hq)⟩
    have hHead := hents (a, s) (List.mem_cons_self _ _)
    rw [addParticipant_cons]
    by_cases hb : a = r
    · subst hb
      rw [if_pos (by simp)]
      by_cases hc : s.contains u = true
      · rw [if_pos hc]
        exact ⟨by simpa using And.intro hkeys.1 hkeys.2, hents⟩
      · rw [if_neg hc]
        have hu : u ∉ s := by simpa using hc
        refine ⟨by simpa using And.intro hkeys.1 hkeys.2, ?_⟩
        intro q hq
        rcases List.mem_cons.mp hq with rfl | hq
        · exact ⟨by simp, by simp [List.nodup_append, hHead.2, hu]⟩
        · exact hents q (List.mem_cons_of_mem _ hq)
    · rw [if_neg (by simp [hb])]
      obtain ⟨ihkeys, ihents⟩ := ih hres
      refine ⟨?_, ?_⟩
      · simp only [List.map_cons, List.nodup_cons]
        refine ⟨?_, ihkeys⟩
        rw [mem_keys_add]
        rintro (hx | rfl)
        · exact hkeys.1 hx
        · exact hb rfl
      · intro q hq
        rcases List.mem_cons.mp hq with rfl | hq
        · exact hHead
        · exact ihents q hq

lemma keys_remove_sublist (reg : Registry) (r u : String) :
    ((removeParticipant reg r u).map Prod.fst).Sublist (reg.map Prod.fst) := by
  induction reg with
  | nil => simp [removeParticipant]
  | cons p rest ih =>
    obtain ⟨a, s⟩ := p
    rw [removeParticipant_cons]
    by_cases hb : a = r
    · subst hb
      rw [if_pos (by simp)]
      by_cases he : (s.erase u).isEmpty
      · rw [if_pos he]
        exact List.sublist_cons_self _ _
      · rw [if_neg he]
        simp
    · rw [if_neg (by simp [hb])]
      simpa using ih

lemma RegWF_remove {reg : Registry} (hWF : RegWF reg) (r u : String) :
    RegWF (removeParticipant reg r u) := by
  induction reg with
  | nil => exact hWF
  | cons p rest ih =>
    obtain ⟨a, s⟩ := p
    obtain ⟨hkeys, hents⟩ := hWF
    simp only [List.map_cons, List.nodup_cons] at hkeys
    have hres : RegWF rest := ⟨hkeys.2, fun q hq => hents q (List.mem_cons_of_mem _ hq)⟩
    have hHead := hents (a, s) (List.mem_cons_self _ _)
    rw [removeParticipant_cons]
    by_cases hb : a = r
    · subst hb
      rw [if_pos (by simp)]
      by_cases he : (s.erase u).isEmpty
      · rw [if_pos he]
        exact hres
      · rw [if_neg he]
        refine ⟨by simpa using hkeys, ?_⟩
        intro q hq
        rcases List.mem_cons.mp hq with rfl | hq
        · exact ⟨by simpa using he, hHead.2.erase u⟩
        · exact hents q (List.mem_cons_of_mem _ hq)
    · rw [if_neg (by simp [hb])]
      obtain ⟨ihkeys, ihents⟩ := ih hres
      refine ⟨?_, ?_⟩
      · simp only [List.map_cons, List.nodup_cons]
        refine ⟨?_, ihkeys⟩
        intro hx
        exact hkeys.1 ((keys_remove_sublist rest r u).mem hx)
      · intro q hq
        rcases List.mem_cons.mp hq with rfl | hq
        · exact hHead
        · exact ihents q hq

lemma RegWF_applyOp {reg : Registry} (hWF : RegWF reg) (op : RegOp) :
    RegWF (applyOp reg op) := by
  cases op with
  | add r u => exact RegWF_add hWF r u
  | remove r u => exact RegWF_remove hWF r u

lemma RegWF_foldl (ops : List RegOp) :
    ∀ reg : Registry, RegWF reg → RegWF (ops.foldl applyOp reg) := by
  induction ops with
  | nil => exact fun reg h => h
  | cons op ops ih =>
    intro reg hWF
    rw [List.foldl_cons]
    exact ih _ (RegWF_applyOp hWF op)

/-- One fold step of the registry matches one fold step of the
joined-and-not-left specification. -/
lemma memReg_applyOp_eq {reg : Registry} (hWF : RegWF reg) (op : RegOp)
    (room user : String) :
    memReg (applyOp reg op) room user =
      (match op with
       | .add r u => if r == room && u == user then true else memReg reg room user
       | .remove r u => if r == room && u == user then false else memReg reg room user) := by
  cases op with
  | add r u =>
    show memReg (addParticipant reg r u) room user = _
    apply Bool.eq_iff_iff.mpr
    rw [memReg_add_iff]
    cases hc : (r == room && u == user) with
    | true =>
      have := Bool.and_eq_true _ _ ▸ hc
      simp only [Bool.and_eq_true, beq_iff_eq] at this
      simp [this]
    | false =>
      have : ¬(r = room ∧ u = user) := by
        intro ⟨h1, h2⟩
        subst h1; subst h2
        simp at hc
      simp [this]
  | remove r u =>
    show memReg (removeParticipant reg r u) room user = _
    apply Bool.eq_iff_iff.mpr
    rw [memReg_remove_iff hWF]
    cases hc : (r == room && u == user) with
    | true =>
      have : r = room ∧ u = user := by
        simpa [Bool.and_eq_true, beq_iff_eq] using hc
      simp [this]
    | false =>
      have : ¬(r = room ∧ u = user) := by
        intro ⟨h1, h2⟩
        subst h1; subst h2
        simp at hc
      simp [this]

lemma memReg_foldl (ops : List RegOp) :
    ∀ reg : Registry, RegWF reg → ∀ room user : String,
      memReg (ops.foldl applyOp reg) room user =
        joinedNotLeft (memReg reg room user) ops room user := by
  induction ops with
  | nil => exact fun reg _ room user => rfl
  | cons op ops ih =>
    intro reg hWF room user
    rw [List.foldl_cons]
    have hstep := memReg_applyOp_eq hWF op room user
    have htail := ih (applyOp reg op) (RegWF_applyOp hWF op) room user
    rw [htail, hstep]
    cases op with
    | add r u => rfl
    | remove r u => rfl

lemma listParticipants_remove_last {reg : Registry} {r u : String}
    (hWF : RegWF reg) (h : regLookup reg r = some [u]) :
    listParticipants (removeParticipant reg r u) r = [] := by
  unfold listParticipants
  rw [regLookup_remove_self hWF.1, h]
  simp

/-- C2: after any finite sequence of joins (adds) and leaves/disconnects
(removes) starting from the empty registry, a username is a participant of
a room exactly when it joined that room and did not subsequently leave it,
and no room entry ever has an empty participant set. -/
theorem registry_matches_join_leave_history (ops : List RegOp)
    (room user : String) :
    memReg (applyOps ops) room user = joinedNotLeft false ops room user ∧
    ∀ p ∈ applyOps ops, p.2 ≠ [] := by
  have hWFnil : RegWF ([] : Registry) := ⟨by simp, by simp⟩
  constructor
  · have h := memReg_foldl ops [] hWFnil room user
    have h0 : memReg [] room user = false := rfl
    rw [h0] at h
    exact h
  · intro p hp
    have hWF : RegWF (applyOps ops) := RegWF_foldl ops [] hWFnil
    exact (hWF.2 p hp).1

/-- C2 witness: a concrete join/leave/join history evaluated through the
theorem. -/
theorem registry_matches_join_leave_history_witness :
    memReg (applyOps [RegOp.add "r" "A", RegOp.add "r" "B",
      RegOp.remove "r" "A"]) "r" "A" =
      joinedNotLeft false [RegOp.add "r" "A", RegOp.add "r" "B",
        RegOp.remove "r" "A"] "r" "A" :=
  (registry_matches_join_leave_history
    [RegOp.add "r" "A", RegOp.add "r" "B", RegOp.remove "r" "A"] "r" "A").1

/-- C4: an inbound send whose resolved room id is falsy or whose trimmed
text is empty performs no store append and no broadcast; the only action is
an `{ok:false, error:"Invalid payload"}` ack when a callback was
supplied. -/
theorem invalid_send_rejected (store : List Message) (sess : SessionData)
    (msg : ChatPayload) (hasAck : Bool) (uuid : String) (now : Nat)
    (h : truthyS (resolvedRoom sess msg) = false ∨ resolvedText msg = "") :
    handleIncomingMessage store sess msg hasAck uuid now =
      (store, if hasAck then [Effect.ack (.err "Invalid payload")] else []) := by
  unfold handleIncomingMessage
  rcases h with h | h
  · simp [h]
  · simp [h]

/-- C4 witness: a whitespace-only text with a valid room id is rejected
with no store change and only the error ack. -/
theorem invalid_send_rejected_witness :
    (truthyS (resolvedRoom ⟨none, none⟩
        ⟨none, some "room-1", none, some " ", none, none, none⟩) = false ∨
      resolvedText ⟨none, some "room-1", none, some " ", none, none, none⟩
        = "") ∧
    handleIncomingMessage [] ⟨none, none⟩
        ⟨none, some "room-1", none, some " ", none, none, none⟩ true "u0" 7 =
      ([], [Effect.ack (.err "Invalid payload")]) :=
  ⟨Or.inr (by decide),
   invalid_send_rejected [] ⟨none, none⟩
     ⟨none, some "room-1", none, some " ", none, none, none⟩ true "u0" 7
     (Or.inr (by decide))⟩

lemma jsStr_some_jsStr (x : Option String) : jsStr (some (jsStr x "text")) "text" = jsStr x "text" := by
  unfold jsStr
  cases x with
  | none => simp
  | some s => by_cases h : s = "" <;> simp [h]

lemma jsOrNullS_idem (x : Option String) : jsOrNullS (jsOrNullS x) = jsOrNullS x := by
  unfold jsOrNullS
  cases x with
  | none => rfl
  | some s => by_cases h : s = "" <;> simp [h]

lemma if_isEmpty_map {α β : Type} (l : List α) (f : α → β) :
    (if l.isEmpty then [] else l.map f) = l.map f := by
  cases l <;> simp

/-- C1: for a valid send (truthy resolved room id, non-empty trimmed
text), persistence strictly precedes broadcast: if the store insert throws
(duplicate id), the store is unchanged, zero room broadcasts occur and the
failure is reported to the sender only (error ack when a callback exists,
then an `error-message` emit to the sending connection); if it succeeds,
exactly one row is appended to the store and the effect trace is the
insert, then the single whole-room broadcast, then the ok ack. -/
theorem send_persists_before_broadcast (store : List Message)
    (sess : SessionData) (msg : ChatPayload) (hasAck : Bool)
    (uuid : String) (now : Nat)
    (hr : truthyS (resolvedRoom sess msg) = true)
    (ht : resolvedText msg ≠ "") :
    (store.any (fun m => m.id == "msg-" ++ uuid) = true →
      handleIncomingMessage store sess msg hasAck uuid now =
        (store,
         (if hasAck then
            [Effect.ack (.err "UNIQUE constraint failed: messages.id")]
          else []) ++
         [Effect.emit .sender "error-message"
            (.errText "Store failed: UNIQUE constraint failed: messages.id")]) ∧
      ∀ d ev p, Effect.emit (Delivery.room d) ev p ∉
        (handleIncomingMessage store sess msg hasAck uuid now).2) ∧
    (store.any (fun m => m.id == "msg-" ++ uuid) = false →
      handleIncomingMessage store sess msg hasAck uuid now =
        (store ++ [dbRow (chatDbMsg sess msg uuid now) now],
         [Effect.dbInsert (dbRow (chatDbMsg sess msg uuid now) now),
          Effect.emit (Delivery.room ((resolvedRoom sess msg).getD ""))
            "chat-message"
            (.chat ⟨"msg-" ++ uuid, resolvedUser sess msg, resolvedText msg,
                    now, jsStr msg.type "text", jsOrNullS msg.filename,
                    jsOrNullS msg.mime⟩)] ++
         (if hasAck then [Effect.ack (.ok ("msg-" ++ uuid))] else []))) := by
  have hguard :
      (!truthyS (resolvedRoom sess msg) || resolvedText msg == "") = false := by
    rw [hr]
    simpa using ht
  have hid : (dbRow (chatDbMsg sess msg uuid now) now).id = "msg-" ++ uuid := rfl
  constructor
  · intro hdup
    have heq : handleIncomingMessage store sess msg hasAck uuid now =
        (store,
         (if hasAck then
            [Effect.ack (.err "UNIQUE constraint failed: messages.id")]
          else []) ++
         [Effect.emit .sender "error-message"
            (.errText "Store failed: UNIQUE constraint failed: messages.id")]) := by
      simp only [handleIncomingMessage, hguard, Bool.false_eq_true, if_false,
        storeMessage, hid, hdup, if_true]
      rfl
    refine ⟨heq, ?_⟩
    intro d ev p
    rw [heq]
    cases hasAck <;> simp
  · intro hdup
    simp only [handleIncomingMessage, hguard, Bool.false_eq_true, if_false,
      storeMessage, hid, hdup, if_false]
    simp [dbRow, chatDbMsg, jsStr_some_jsStr, jsOrNullS_idem]

/-- C1 witness: a concrete valid send with an empty store succeeds with
exactly one appended row, insert before broadcast. -/
theorem send_persists_before_broadcast_witness :
    (truthyS (resolvedRoom ⟨some "A", some "r"⟩
        ⟨none, none, none, some "hi", none, none, none⟩) = true) ∧
    (resolvedText ⟨none, none, none, some "hi", none, none, none⟩ ≠ "") ∧
    (([] : List Message).any (fun m => m.id == "msg-" ++ "u1") = false →
      handleIncomingMessage [] ⟨some "A", some "r"⟩
          ⟨none, none, none, some "hi", none, none, none⟩ true "u1" 5 =
        ([dbRow (chatDbMsg ⟨some "A", some "r"⟩
            ⟨none, none, none, some "hi", none, none, none⟩ "u1" 5) 5],
         [Effect.dbInsert (dbRow (chatDbMsg ⟨some "A", some "r"⟩
            ⟨none, none, none, some "hi", none, none, none⟩ "u1" 5) 5),
          Effect.emit (Delivery.room "r") "chat-message"
            (.chat ⟨"msg-" ++ "u1", "A", "hi", 5, "text", none, none⟩),
          Effect.ack (.ok ("msg-" ++ "u1"))])) :=
  ⟨by decide, by decide, fun h =>
    (send_persists_before_broadcast [] ⟨some "A", some "r"⟩
      ⟨none, none, none, some "hi", none, none, none⟩ true "u1" 5
      (by decide) (by decide)).2 h⟩

/-- C5: join side effects happen in order with the exact delivery sets:
the registry add comes first (both emitted participant lists are the
post-add list), `joined` goes to the requesting connection only,
`user-joined` to every other connection in the room, and then the room
history is replayed message-by-message to the requester only. -/
theorem join_effect_order (reg : Registry) (store : List Message)
    (roomIdIn usernameIn : Option String) (randStr : String) :
    joinRoom reg store roomIdIn usernameIn randStr =
      (let roomId := joinRoomId roomIdIn randStr
       let name := joinName usernameIn
       let reg' := addParticipant reg roomId name
       let parts := listParticipants reg' roomId
       (reg',
        ⟨some name, some roomId⟩,
        [Effect.emit .sender "joined" (.joined roomId parts),
         Effect.emit (.others roomId) "user-joined" (.userJoined name parts)] ++
        (getRecentMessages store roomId 50).map (fun m =>
          Effect.emit .sender "chat-message"
            (.chat ⟨m.id, m.username, m.content, m.created_at, m.type,
                    m.filename, m.mime⟩)))) ∧
    ∀ e ∈ ((joinRoom reg store roomIdIn usernameIn randStr).2.2).drop 2,
      ∃ w, e = Effect.emit .sender "chat-message" (.chat w) := by
  have heq : (joinRoom reg store roomIdIn usernameIn randStr).2.2 =
      [Effect.emit .sender "joined"
         (.joined (joinRoomId roomIdIn randStr)
           (listParticipants
             (addParticipant reg (joinRoomId roomIdIn randStr)
               (joinName usernameIn)) (joinRoomId roomIdIn randStr))),
       Effect.emit (.others (joinRoomId roomIdIn randStr)) "user-joined"
         (.userJoined (joinName usernameIn)
           (listParticipants
             (addParticipant reg (joinRoomId roomIdIn randStr)
               (joinName usernameIn)) (joinRoomId roomIdIn randStr)))] ++
      (getRecentMessages store (joinRoomId roomIdIn randStr) 50).map (fun m =>
        Effect.emit .sender "chat-message"
          (.chat ⟨m.id, m.username, m.content, m.created_at, m.type,
                  m.filename, m.mime⟩)) := by
    simp only [joinRoom, if_isEmpty_map]
  refine ⟨by simp only [joinRoom, if_isEmpty_map], ?_⟩
  intro e he
  rw [heq] at he
  have he' : e ∈ (getRecentMessages store (joinRoomId roomIdIn randStr)
      50).map (fun m =>
        Effect.emit .sender "chat-message"
          (.chat ⟨m.id, m.username, m.content, m.created_at, m.type,
                  m.filename, m.mime⟩)) := he
  rcases List.mem_map.mp he' with ⟨m, -, rfl⟩
  exact ⟨⟨m.id, m.username, m.content, m.created_at, m.type,
          m.filename, m.mime⟩, rfl⟩

lemma insertDesc_perm (m : Message) (l : List Message) :
    (insertDesc m l).Perm (m :: l) := by
  induction l with
  | nil => exact List.Perm.refl _
  | cons y ys ih =>
    unfold insertDesc
    by_cases h : y.created_at ≤ m.created_at
    · rw [if_pos h]
    · rw [if_neg h]
      exact (ih.cons y).trans (List.Perm.swap m y ys)

lemma sortDesc_perm (l : List Message) : (sortDesc l).Perm l := by
  induction l with
  | nil => exact List.Perm.refl _
  | cons x xs ih =>
    exact (insertDesc_perm x (sortDesc xs)).trans (ih.cons x)

lemma pairwise_insertDesc {l : List Message} (m : Message)
    (h : l.Pairwise (fun a b => b.created_at ≤ a.created_at)) :
    (insertDesc m l).Pairwise (fun a b => b.created_at ≤ a.created_at) := by
  induction l with
  | nil => simp [insertDesc]
  | cons y ys ih =>
    unfold insertDesc
    rcases List.pairwise_cons.mp h with ⟨hy, hys⟩
    by_cases hle : y.created_at ≤ m.created_at
    · rw [if_pos hle]
      refine List.Pairwise.cons ?_ h
      intro z hz
      rcases List.mem_cons.mp hz with rfl | hz
      · exact hle
      · exact le_trans (hy z hz) hle
    · rw [if_neg hle]
      have hm : m.created_at ≤ y.created_at := Nat.le_of_not_le hle
      refine List.Pairwise.cons ?_ (ih hys)
      intro z hz
      rcases List.mem_cons.mp ((insertDesc_perm m ys).subset hz) with rfl | hz
      · exact hm
      · exact hy z hz

lemma sortDesc_sorted (l : List Message) :
    (sortDesc l).Pairwise (fun a b => b.created_at ≤ a.created_at) := by
  induction l with
  | nil => simp [sortDesc]
  | cons x xs ih => exact pairwise_insertDesc x ih

lemma sortDesc_of_const_ts {l : List Message}
    (h : ∀ m ∈ l, ∀ m' ∈ l, m.created_at = m'.created_at) :
    sortDesc l = l := by
  induction l with
  | nil => rfl
  | cons x xs ih =>
    show insertDesc x (sortDesc xs) = x :: xs
    rw [ih (fun m hm m' hm' =>
      h m (List.mem_cons_of_mem _ hm) m' (List.mem_cons_of_mem _ hm'))]
    cases xs with
    | nil => rfl
    | cons y ys =>
      show insertDesc x (y :: ys) = x :: y :: ys
      unfold insertDesc
      rw [if_pos (le_of_eq (h y (by simp) x (by simp)))]

/-- C3: `getRecentMessages` returns at most `limit` rows, all from the
requested room and present in the store, in non-decreasing `created_at`
order, with no duplicate ids (given the store's unique-id constraint). -/
theorem recent_bounded_sorted_nodup (store : List Message) (roomId : String)
    (limit : Nat) (h : (store.map Message.id).Nodup) :
    let out := getRecentMessages store roomId limit
    out.length ≤ limit ∧
    (∀ m ∈ out, m.room_id = roomId ∧ m ∈ store) ∧
    out.Pairwise (fun a b => a.created_at ≤ b.created_at) ∧
    (out.map Message.id).Nodup := by
  intro out
  have hfil : (store.filter (fun m => m.room_id == roomId)).Sublist store :=
    List.filter_sublist _
  have hperm := sortDesc_perm (store.filter (fun m => m.room_id == roomId))
  refine ⟨?_, ?_, ?_, ?_⟩
  · show ((sortDesc _).take limit).reverse.length ≤ limit
    rw [List.length_reverse, List.length_take]
    exact min_le_left _ _
  · intro m hm
    have hm1 : m ∈ (sortDesc (store.filter (fun m => m.room_id == roomId))).take limit :=
      List.mem_reverse.mp hm
    have hm2 := hperm.mem_iff.mp (List.mem_of_mem_take hm1)
    have hm3 := List.mem_filter.mp hm2
    exact ⟨by simpa using hm3.2, hm3.1⟩
  · have hs := sortDesc_sorted (store.filter (fun m => m.room_id == roomId))
    have ht := List.Pairwise.sublist (List.take_sublist limit _) hs
    exact List.pairwise_reverse.mpr ht
  · have h1 : ((store.filter (fun m => m.room_id == roomId)).map Message.id).Nodup :=
      List.Nodup.sublist (List.Sublist.map Message.id hfil) h
    have h2 : ((sortDesc (store.filter (fun m => m.room_id == roomId))).map Message.id).Nodup :=
      ((hperm.map Message.id).nodup_iff).mpr h1
    have h3 : (((sortDesc (store.filter (fun m => m.room_id == roomId))).take limit).map Message.id).Nodup := by
      rw [List.map_take]
      exact List.Nodup.sublist (List.take_sublist limit _) h2
    show ((((sortDesc _).take limit).reverse).map Message.id).Nodup
    rw [List.map_reverse]
    exact List.nodup_reverse.mpr h3

/-- C3 witness: a two-row store evaluated through the theorem. -/
theorem recent_bounded_sorted_nodup_witness :
    (([⟨"msg-a", "r", "A", "x", "text", none, none, 2⟩,
        ⟨"msg-b", "r", "B", "y", "text", none, none, 1⟩] :
          List Message).map Message.id).Nodup ∧
    (let out := getRecentMessages
        [⟨"msg-a", "r", "A", "x", "text", none, none, 2⟩,
         ⟨"msg-b", "r", "B", "y", "text", none, none, 1⟩] "r" 50
     out.length ≤ 50 ∧
     (∀ m ∈ out, m.room_id = "r" ∧
        m ∈ ([⟨"msg-a", "r", "A", "x", "text", none, none, 2⟩,
              ⟨"msg-b", "r", "B", "y", "text", none, none, 1⟩] :
                List Message)) ∧
     out.Pairwise (fun a b => a.created_at ≤ b.created_at) ∧
     (out.map Message.id).Nodup) :=
  ⟨by decide,
   recent_bounded_sorted_nodup
     [⟨"msg-a", "r", "A", "x", "text", none, none, 2⟩,
      ⟨"msg-b", "r", "B", "y", "text", none, none, 1⟩] "r" 50 (by decide)⟩

/-- C6 counterexample: two same-room messages sharing one `created_at`,
inserted in the order `msg-a` then `msg-b`, come back from
`getRecentMessages` as `[msg-b, msg-a]` — reverse insertion order, not the
insertion order the claim asserts (the SQL has no secondary tiebreaker;
the `DESC` index scan returns ties in rowid order and the final
`rows.reverse()` flips them). -/
theorem recent_ties_counterexample :
    (⟨"msg-a", "r", "A", "first", "text", none, none, 100⟩ : Message) ≠
      ⟨"msg-b", "r", "B", "second", "text", none, none, 100⟩ ∧
    (⟨"msg-a", "r", "A", "first", "text", none, none, 100⟩ : Message).created_at =
      (⟨"msg-b", "r", "B", "second", "text", none, none, 100⟩ : Message).created_at ∧
    getRecentMessages
        [⟨"msg-a", "r", "A", "first", "text", none, none, 100⟩,
         ⟨"msg-b", "r", "B", "second", "text", none, none, 100⟩] "r" 50 =
      [⟨"msg-b", "r", "B", "second", "text", none, none, 100⟩,
       ⟨"msg-a", "r", "A", "first", "text", none, none, 100⟩] := by
  decide

/-- C6 amended: the retrieval order is still a deterministic total order
(sorted by `created_at`, stable across calls, cf. the C3 theorem), but
messages with equal `created_at` are returned in *reverse* insertion
order: for a same-room, same-timestamp store within the limit, the result
is exactly the reverse of the insertion order. -/
theorem recent_ties_reverse_insertion (store : List Message)
    (roomId : String) (limit : Nat)
    (hroom : ∀ m ∈ store, m.room_id = roomId)
    (hts : ∀ m ∈ store, ∀ m' ∈ store, m.created_at = m'.created_at)
    (hlen : store.length ≤ limit) :
    getRecentMessages store roomId limit = store.reverse := by
  unfold getRecentMessages
  have hfil : store.filter (fun m => m.room_id == roomId) = store :=
    List.filter_eq_self.mpr (fun m hm => by simp [hroom m hm])
  rw [hfil, sortDesc_of_const_ts hts, List.take_of_length_le hlen]

/-- C6 amended witness: the two-message tie evaluated through the
theorem. -/
theorem recent_ties_reverse_insertion_witness :
    getRecentMessages
        [⟨"msg-c", "r", "A", "one", "text", none, none, 7⟩,
         ⟨"msg-d", "r", "B", "two", "text", none, none, 7⟩] "r" 50 =
      ([⟨"msg-c", "r", "A", "one", "text", none, none, 7⟩,
        ⟨"msg-d", "r", "B", "two", "text", none, none, 7⟩] :
          List Message).reverse :=
  recent_ties_reverse_insertion
    [⟨"msg-c", "r", "A", "one", "text", none, none, 7⟩,
     ⟨"msg-d", "r", "B", "two", "text", none, none, 7⟩] "r" 50
    (by decide) (by decide) (by decide)

lemma removeParticipant_not_mem {reg : Registry} {r : String} (u : String)
    (h : r ∉ reg.map Prod.fst) : removeParticipant reg r u = reg := by
  induction reg with
  | nil => rfl
  | cons p rest ih =>
    obtain ⟨a, s⟩ := p
    simp only [List.map_cons, List.mem_cons] at h
    push_neg at h
    rw [removeParticipant_cons, if_neg (by simp [Ne.symm h.1]), ih h.2]

/-- Removing the same name twice changes nothing the second time. -/
lemma removeParticipant_idem {reg : Registry} (hWF : RegWF reg)
    (r u : String) :
    removeParticipant (removeParticipant reg r u) r u =
      removeParticipant reg r u := by
  induction reg with
  | nil => rfl
  | cons p rest ih =>
    obtain ⟨a, s⟩ := p
    obtain ⟨hkeys, hents⟩ := hWF
    simp only [List.map_cons, List.nodup_cons] at hkeys
    have hres : RegWF rest :=
      ⟨hkeys.2, fun q hq => hents q (List.mem_cons_of_mem _ hq)⟩
    have hHead := hents (a, s) (List.mem_cons_self _ _)
    rw [removeParticipant_cons]
    by_cases hb : a = r
    · subst hb
      rw [if_pos (by simp)]
      by_cases he : (s.erase u).isEmpty
      · rw [if_pos he]
        exact removeParticipant_not_mem u hkeys.1
      · rw [if_neg he, removeParticipant_cons, if_pos (by simp)]
        have hu : u ∉ s.erase u := fun hmem =>
          ((hHead.2.mem_erase_iff).mp hmem).1 rfl
        rw [List.erase_of_not_mem hu, if_neg he]
    · rw [if_neg (by simp [hb]), removeParticipant_cons,
        if_neg (by simp [hb]), ih hres]

/-- C7 counterexample: with `A` and `B` in room `r`, a second `end-session`
for `A` (same room, same name) still emits `participants` and `user-left`
to the room — the second leave is not a complete no-op and a duplicate
`user-left` is delivered to the remaining members. -/
theorem second_leave_counterexample :
    (endSession (endSession [("r", ["A", "B"])] ⟨some "A", some "r"⟩
        none none).1 ⟨some "A", some "r"⟩ none none).2 =
      [Effect.emit (.room "r") "participants" (.participants ["B"]),
       Effect.emit (.room "r") "user-left" (.userLeft "A" ["B"])] := by
  decide

/-- C7 amended: the registry half of the claim holds — `removeParticipant`
is idempotent and a second `end-session` leaves the registry unchanged —
but the handler is not a no-op: whenever the resolved room and name are
truthy it re-emits `participants` and `user-left` to the whole room. -/
theorem second_leave_registry_stable (reg : Registry) (sess : SessionData)
    (roomIdIn usernameIn : Option String) (hWF : RegWF reg) :
    (∀ r u : String,
      removeParticipant (removeParticipant reg r u) r u =
        removeParticipant reg r u) ∧
    (endSession (endSession reg sess roomIdIn usernameIn).1 sess
        roomIdIn usernameIn).1 =
      (endSession reg sess roomIdIn usernameIn).1 ∧
    (truthyS (jsOrS roomIdIn sess.roomId) = true →
      truthyS (jsOrS usernameIn sess.username) = true →
      (endSession (endSession reg sess roomIdIn usernameIn).1 sess
          roomIdIn usernameIn).2 =
        [Effect.emit (.room ((jsOrS roomIdIn sess.roomId).getD ""))
           "participants"
           (.participants (listParticipants
             (endSession reg sess roomIdIn usernameIn).1
             ((jsOrS roomIdIn sess.roomId).getD ""))),
         Effect.emit (.room ((jsOrS roomIdIn sess.roomId).getD ""))
           "user-left"
           (.userLeft ((jsOrS usernameIn sess.username).getD "")
             (listParticipants (endSession reg sess roomIdIn usernameIn).1
               ((jsOrS roomIdIn sess.roomId).getD "")))]) := by
  refine ⟨fun r u => removeParticipant_idem hWF r u, ?_, ?_⟩
  · unfold endSession
    by_cases hc : (truthyS (jsOrS roomIdIn sess.roomId) &&
        truthyS (jsOrS usernameIn sess.username)) = true
    · simp only [hc, if_true]
      exact removeParticipant_idem hWF _ _
    · simp only [hc]
      simp at hc
      simp [hc]
  · intro hr hn
    unfold endSession
    simp only [hr, hn, Bool.and_self, if_true]
    rw [removeParticipant_idem hWF]

/-- C10: `listParticipants` is total and never fails: for a room id not
present in the registry — including a room whose entry was just deleted by
removing its last participant — it returns the empty list. -/
theorem listParticipants_total_empty :
    (∀ (reg : Registry) (roomId : String),
       regLookup reg roomId = none → listParticipants reg roomId = []) ∧
    (∀ (reg : Registry) (roomId u : String), RegWF reg →
       regLookup reg roomId = some [u] →
       listParticipants (removeParticipant reg roomId u) roomId = []) := by
  constructor
  · intro reg roomId h
    unfold listParticipants
    rw [h]
    rfl
  · intro reg roomId u hWF h
    exact listParticipants_remove_last hWF h

/-- C10 witness: an absent room, and a room deleted by its last leave, both
list as empty. -/
theorem listParticipants_total_empty_witness :
    listParticipants [] "gone" = [] ∧
    listParticipants (removeParticipant [("r", ["A"])] "r" "A") "r" = [] :=
  ⟨listParticipants_total_empty.1 [] "gone" rfl,
   listParticipants_total_empty.2 [("r", ["A"])] "r" "A"
     (by
       refine ⟨by simp, ?_⟩
       intro p hp
       simp only [List.mem_singleton] at hp
       subst hp
       simp) rfl⟩

/-- C7 amended witness: the concrete double leave through the theorem. -/
theorem second_leave_registry_stable_witness :
    (endSession (endSession [("r", ["A", "B"])] ⟨some "A", some "r"⟩
        none none).1 ⟨some "A", some "r"⟩ none none).1 =
      (endSession [("r", ["A", "B"])] ⟨some "A", some "r"⟩ none none).1 :=
  (second_leave_registry_stable [("r", ["A", "B"])] ⟨some "A", some "r"⟩
    none none
    (by
      refine ⟨by simp, ?_⟩
      intro p hp
      simp only [List.mem_singleton] at hp
      subst hp
      simp)).2.1

lemma length_takeStr_le (s : String) (n : Nat) : (takeStr s n).length ≤ n := by
  show (s.data.take n).length ≤ n
  simp

/-- C8: join never rejects: the session always receives the normalized
values, the normalized name is registered, a blank username becomes
`Anonymous`, a supplied username is truncated to at most 48 characters,
and a missing room id is minted as `'room-'` plus the upper-cased
7-character slice (2..9) of the random base-36 rendering (exactly 7
characters whenever that rendering has at least 9). -/
theorem join_never_rejects (reg : Registry) (store : List Message)
    (roomIdIn usernameIn : Option String) (randStr : String) :
    (joinRoom reg store roomIdIn usernameIn randStr).2.1 =
      ⟨some (joinName usernameIn), some (joinRoomId roomIdIn randStr)⟩ ∧
    memReg (joinRoom reg store roomIdIn usernameIn randStr).1
      (joinRoomId roomIdIn randStr) (joinName usernameIn) = true ∧
    (truthyS usernameIn = false → joinName usernameIn = "Anonymous") ∧
    (∀ u : String, usernameIn = some u → u ≠ "" →
      joinName usernameIn = takeStr u 48) ∧
    (joinName usernameIn).length ≤ 48 ∧
    (truthyS roomIdIn = false →
      joinRoomId roomIdIn randStr =
        "room-" ++ upperStr (takeStr (dropStr randStr 2) 7) ∧
      (9 ≤ randStr.length →
        (upperStr (takeStr (dropStr randStr 2) 7)).length = 7)) := by
  refine ⟨rfl, ?_, ?_, ?_, ?_, ?_⟩
  · exact (memReg_add_iff reg (joinRoomId roomIdIn randStr)
      (joinName usernameIn) (joinRoomId roomIdIn randStr)
      (joinName usernameIn)).mpr (Or.inl ⟨rfl, rfl⟩)
  · intro h
    unfold joinName
    rw [h]
    rfl
  · intro u hu hne
    unfold joinName
    rw [hu]
    simp [truthyS, hne]
  · unfold joinName
    by_cases h : truthyS usernameIn = true
    · rw [if_pos h]
      exact length_takeStr_le _ 48
    · rw [if_neg h]
      decide
  · intro h
    refine ⟨by unfold joinRoomId; rw [h]; rfl, ?_⟩
    intro hlen
    show (((dropStr randStr 2).data.take 7).map Char.toUpper).length = 7
    rw [List.length_map, List.length_take]
    show min 7 ((randStr.data.drop 2).length) = 7
    rw [List.length_drop]
    have : randStr.data.length = randStr.length := rfl
    omega

/-- C8 witness: blank username and missing room id, with a 9-character
random rendering, evaluated through the theorem. -/
theorem join_never_rejects_witness :
    joinName none = "Anonymous" ∧
    joinRoomId none "0.abc1234" =
      "room-" ++ upperStr (takeStr (dropStr "0.abc1234" 2) 7) ∧
    (upperStr (takeStr (dropStr "0.abc1234" 2) 7)).length = 7 :=
  ⟨(join_never_rejects [] [] none none "0.abc1234").2.2.1 rfl,
   ((join_never_rejects [] [] none none "0.abc1234").2.2.2.2.2 rfl).1,
   ((join_never_rejects [] [] none none "0.abc1234").2.2.2.2.2 rfl).2
     (by decide)⟩

lemma string_append_left_inj {p a b : String} (h : p ++ a = p ++ b) :
    a = b := by
  have hd := congrArg String.data h
  rw [String.data_append, String.data_append] at hd
  exact String.ext (List.append_cancel_left hd)

lemma msg_id_ne_file_id (a b : String) : ("msg-" ++ a) ≠ ("file-" ++ b) := by
  intro h
  have hd := congrArg String.data h
  rw [String.data_append, String.data_append] at hd
  have h1 : "msg-".data = ['m', 's', 'g', '-'] := rfl
  have h2 : "file-".data = ['f', 'i', 'l', 'e', '-'] := rfl
  rw [h1, h2] at hd
  simp at hd

/-- C9 counterexample: a client can send `type: "file"` through the
chat-message path; the core persists a file-kind row whose server-minted
id carries the `msg-` prefix, so the id prefix does not match the
message's kind as the claim states. -/
theorem id_kind_mismatch_counterexample :
    (handleIncomingMessage [] ⟨none, none⟩
        ⟨none, some "r", some "A", some "hi", some "file", none, none⟩
        false "u1" 5).1 =
      [⟨"msg-u1", "r", "A", "hi", "file", none, none, 5⟩] ∧
    (⟨"msg-u1", "r", "A", "hi", "file", none, none, 5⟩ : Message).type =
      "file" ∧
    takeStr (⟨"msg-u1", "r", "A", "hi", "file", none, none, 5⟩ :
      Message).id 5 ≠ "file-" := by
  decide

/-- C9 amended: message ids are generated server-side — the handlers never
read an id from the inbound payload — as `'msg-' + uuid` on the
chat-message path and `'file-' + uuid` on the file path (so distinct uuids
give distinct ids, the two prefixes never collide, and the store's unique
index refuses an id already present); `created_at` is assigned by the
server at persistence time. However the prefix encodes the ingestion path,
not the stored kind: the chat path persists a client-supplied `type`
(even `"file"`) under a `msg-` id. -/
theorem ids_server_generated (store : List Message) (sess : SessionData)
    (msg : ChatPayload) (f : FilePayload) (hasAck : Bool)
    (uuid uuidB : String) (now : Nat) (hdistinct : uuid ≠ uuidB) :
    (∀ i : Option String,
      handleIncomingMessage store sess { msg with id := i } hasAck uuid now =
        handleIncomingMessage store sess msg hasAck uuid now) ∧
    (∀ i : Option String,
      handleFile store sess { f with id := i } uuid now =
        handleFile store sess f uuid now) ∧
    (chatDbMsg sess msg uuid now).id = "msg-" ++ uuid ∧
    (dbRow (chatDbMsg sess msg uuid now) now).created_at = now ∧
    (fileDbMsg sess f uuid now).id = "file-" ++ uuid ∧
    (dbRow (fileDbMsg sess f uuid now) now).type = "file" ∧
    (dbRow (fileDbMsg sess f uuid now) now).created_at = now ∧
    ("msg-" ++ uuid) ≠ ("msg-" ++ uuidB) ∧
    ("msg-" ++ uuid) ≠ ("file-" ++ uuidB) ∧
    (∀ (dbm : DbMsg) (st st' : List Message),
      storeMessage st dbm now = .ok st' →
      ∀ m ∈ st, m.id ≠ (dbRow dbm now).id) := by
  refine ⟨fun i => rfl, fun i => rfl, rfl, by simp [dbRow, chatDbMsg], rfl,
    rfl, by simp [dbRow, fileDbMsg], ?_, msg_id_ne_file_id uuid uuidB, ?_⟩
  · intro h
    exact hdistinct (string_append_left_inj h)
  · intro dbm st st' hok m hm heq
    unfold storeMessage at hok
    by_cases hany : (st.any fun m => m.id == (dbRow dbm now).id) = true
    · simp [hany] at hok
    · have : (st.any fun m => m.id == (dbRow dbm now).id) = true :=
        List.any_eq_true.mpr ⟨m, hm, by simp [heq]⟩
      exact hany this

/-- C9 amended witness: concrete distinct uuids through the theorem. -/
theorem ids_server_generated_witness :
    (chatDbMsg ⟨none, none⟩ ⟨none, some "r", none, some "hi", none, none,
        none⟩ "u1" 5).id = "msg-" ++ "u1" ∧
    ("msg-" ++ "u1") ≠ ("msg-" ++ "u2") ∧
    ("msg-" ++ "u1") ≠ ("file-" ++ "u2") :=
  ⟨(ids_server_generated [] ⟨none, none⟩
      ⟨none, some "r", none, some "hi", none, none, none⟩
      ⟨none, none, none, none, none, none⟩ false "u1" "u2" 5
      (by decide)).2.2.1,
   (ids_server_generated [] ⟨none, none⟩
      ⟨none, some "r", none, some "hi", none, none, none⟩
      ⟨none, none, none, none, none, none⟩ false "u1" "u2" 5
      (by decide)).2.2.2.2.2.2.2.1,
   (ids_server_generated [] ⟨none, none⟩
      ⟨none, some "r", none, some "hi", none, none, none⟩
      ⟨none, none, none, none, none, none⟩ false "u1" "u2" 5
      (by decide)).2.2.2.2.2.2.2.2.1⟩

/-- The unique-id store invariant assumed by the C3 theorem is preserved by
every successful insert. -/
lemma storeMessage_preserves_nodup {store store' : List Message}
    {dbm : DbMsg} {now : Nat}
    (h : (store.map Message.id).Nodup)
    (hok : storeMessage store dbm now = .ok store') :
    (store'.map Message.id).Nodup := by
  unfold storeMessage at hok
  by_cases hany : (store.any fun m => m.id == (dbRow dbm now).id) = true
  · simp [hany] at hok
  · simp only [hany, Bool.false_eq_true, if_false, Except.ok.injEq] at hok
    subst hok
    have hno : ∀ m ∈ store, m.id ≠ (dbRow dbm now).id := by
      intro m hm heq
      exact hany (List.any_eq_true.mpr ⟨m, hm, by simp [heq]⟩)
    rw [List.map_append, List.nodup_append]
    refine ⟨h, by simp, ?_⟩
    intro x hx hx'
    rcases List.mem_map.mp hx with ⟨m, hm, rfl⟩
    have : m.id = (dbRow dbm now).id := by simpa using hx'
    exact hno m hm this
